import Mathlib

/-! # MLCGSolver: the Krylov bottom solver of the multigrid solver

A shallow embedding of `class MLCGSolver` from
`Src/LinearSolvers/MLMG/AMReX_MLCGSolver.H`: first the configuration accessors, which the
header defines inline, then the solve run, which the header only declares.

* A solver object is a record of its data members (header lines 72-80).
* Every member function is a function of the object state.  A member function
  returning `void` maps a state to a state; a member function returning a value
  maps a state to the pair of the returned value and the state it leaves behind,
  so that "this accessor does not write" is a theorem and not a convention.
* The C++ type `int` is embedded as `Int`.  The accessors only copy values, so the
  32-bit range plays no role in them.
-/

namespace amrex

/-- The enumeration `MLCGSolver::Type` (header line 21): `enum struct Type { BiCGStab, CG }`.
The name `Type` is reserved in Lean, hence `CGType`. -/
inductive CGType where
  | BiCGStab
  | CG
  deriving DecidableEq, Repr

/-- The data members of `class MLCGSolver` (header lines 72-80), in declaration order.
`mlmg` and `Lp` are a pointer and a reference to objects the solver borrows; they are
kept as handles (addresses). -/
structure MLCGSolver where
  mlmg : Nat
  Lp : Nat
  solver_type : CGType
  amrlev : Int
  mglev : Int
  verbose : Int
  maxiter : Int
  nghost : Int
  iter : Int
  deriving DecidableEq, Repr

namespace MLCGSolver

/-- Modelled from the spec: the definition of the constructor
`MLCGSolver (MLMG* a_mlmg, MLLinOp& _lp, Type _typ = Type::BiCGStab)` (declared at header
line 23) is not in the header.  The members with a default member initialiser take it
(`verbose = 0`, `maxiter = 100`, `nghost = 0`, `iter = -1`, header lines 77-80); the spec
states these as the defaults and the "not yet run" sentinel.  The constructor takes "an
operator handle, solver-type enum, and level identifiers": `mlmg`, `Lp` and `solver_type`
are the constructor arguments, and the two level identifiers `amrlev`, `mglev`, whose
derivation is not visible, are parameters.  The declaration gives `_typ` the default argument
`Type::BiCGStab`: `typ = none` is a construction that omits the argument. -/
def construct (a_mlmg lp : Nat) (amrlev mglev : Int) (typ : Option CGType) : MLCGSolver :=
  { mlmg := a_mlmg, Lp := lp, solver_type := typ.getD CGType.BiCGStab, amrlev := amrlev,
    mglev := mglev, verbose := 0, maxiter := 100, nghost := 0, iter := -1 }

/-- Header line 29: `void setSolver (Type _typ) noexcept { solver_type = _typ; }`. -/
def setSolver (typ : CGType) (s : MLCGSolver) : MLCGSolver :=
  { s with solver_type := typ }

/-- Header line 48: `void setVerbose (int _verbose) { verbose = _verbose; }`. -/
def setVerbose (v : Int) (s : MLCGSolver) : MLCGSolver :=
  { s with verbose := v }

/-- Header line 49: `int getVerbose () const { return verbose; }`. -/
def getVerbose (s : MLCGSolver) : Int × MLCGSolver :=
  (s.verbose, s)

/-- Header line 51: `void setMaxIter (int _maxiter) { maxiter = _maxiter; }`. -/
def setMaxIter (n : Int) (s : MLCGSolver) : MLCGSolver :=
  { s with maxiter := n }

/-- Header line 52: `int getMaxIter () const { return maxiter; }`. -/
def getMaxIter (s : MLCGSolver) : Int × MLCGSolver :=
  (s.maxiter, s)

/-- Header line 54: `void setNGhost(int _nghost) {nghost = _nghost;}`. -/
def setNGhost (n : Int) (s : MLCGSolver) : MLCGSolver :=
  { s with nghost := n }

/-- Header line 55: `int getNGhost() {return nghost;}` (not declared `const`). -/
def getNGhost (s : MLCGSolver) : Int × MLCGSolver :=
  (s.nghost, s)

/-- Header line 68: `int getNumIters () const noexcept { return iter; }`. -/
def getNumIters (s : MLCGSolver) : Int × MLCGSolver :=
  (s.iter, s)

end MLCGSolver

/-- One call of a configuration setter of the public interface, with its argument. -/
inductive SetterCall where
  | setMaxIter (n : Int)
  | setNGhost (n : Int)
  | setVerbose (n : Int)
  | setSolver (t : CGType)
  deriving DecidableEq, Repr

/-- The effect of one setter call on a solver object. -/
def SetterCall.run : SetterCall → MLCGSolver → MLCGSolver
  | .setMaxIter n, s => s.setMaxIter n
  | .setNGhost n, s => s.setNGhost n
  | .setVerbose n, s => s.setVerbose n
  | .setSolver t, s => s.setSolver t

/-- A finite sequence of setter calls, executed first to last. -/
def runSetters : List SetterCall → MLCGSolver → MLCGSolver
  | [], s => s
  | c :: cs, s => runSetters cs (c.run s)

/-- Every `setMaxIter` call of the sequence has a positive argument. -/
def maxIterArgsPositive : List SetterCall → Bool
  | [] => true
  | .setMaxIter n :: cs => decide (0 < n) && maxIterArgsPositive cs
  | _ :: cs => maxIterArgsPositive cs

/-- Every `setNGhost` call of the sequence has a non-negative argument. -/
def nGhostArgsNonneg : List SetterCall → Bool
  | [] => true
  | .setNGhost n :: cs => decide (0 ≤ n) && nGhostArgsNonneg cs
  | _ :: cs => nGhostArgsNonneg cs

/-- The argument of the last `setSolver` call of the sequence, if there is one. -/
def lastSetSolver : List SetterCall → Option CGType
  | [] => none
  | .setSolver t :: cs => (lastSetSolver cs).orElse (fun _ => some t)
  | _ :: cs => lastSetSolver cs

/-- The argument of the last `setMaxIter` call of the sequence, if there is one. -/
def lastSetMaxIter : List SetterCall → Option Int
  | [] => none
  | .setMaxIter n :: cs => (lastSetMaxIter cs).orElse (fun _ => some n)
  | _ :: cs => lastSetMaxIter cs

/-- The argument of the last `setNGhost` call of the sequence, if there is one. -/
def lastSetNGhost : List SetterCall → Option Int
  | [] => none
  | .setNGhost n :: cs => (lastSetNGhost cs).orElse (fun _ => some n)
  | _ :: cs => lastSetNGhost cs

/-- The argument of the last `setVerbose` call of the sequence, if there is one. -/
def lastSetVerbose : List SetterCall → Option Int
  | [] => none
  | .setVerbose n :: cs => (lastSetVerbose cs).orElse (fun _ => some n)
  | _ :: cs => lastSetVerbose cs

/-- The solver objects alive in the program, by address.  The class has no static data
member (header lines 70-81) and its copy constructor and copy assignment are deleted
(lines 26-27), so the state of the program's solvers is exactly one record per object. -/
abbrev World := Nat → MLCGSolver

/-- A member function call `a->m(...)`: the member function reads and writes the
members of the object at address `a` only. -/
def World.call (w : World) (a : Nat) (m : MLCGSolver → MLCGSolver) : World :=
  fun b => if b = a then m (w a) else w b

/-! ## The solve run

`solve`, `solve_cg`, `solve_bicgstab`, `dotxy` and `norm_inf` are declared in the header
(lines 38-66) and defined elsewhere.  Their model below follows sections 4.1-4.5 and 6
of the specification.  The scalar type `S` (the library's `Real`) and the vector type `V`
(`MultiFab`, or `Any` for the second overload of `solve`) are parameters, and so is every
arithmetic operation on them: the statements proved about the run hold for any arithmetic,
exact or rounded.  The per-iteration diagnostics that `verbose` switches on are a logging
side effect outside the return contract (section 4.5) and the ghost width only sizes the
scratch vectors; neither is part of the model. -/

/-- Modelled from the spec: the status of a run (section 3, SolverResult):
the status code is one of Success, LossOfPrecision, IterationsExceeded. -/
inductive Status where
  | Success
  | LossOfPrecision
  | IterationsExceeded
  deriving DecidableEq, Repr

/-- Modelled from the spec: the status codes of section 6 and of the header comment at
lines 31-37: "0 means success, 1 means failed for loss of precision, 2 means iterations
exceeded". -/
def Status.code : Status → Int
  | .Success => 0
  | .LossOfPrecision => 1
  | .IterationsExceeded => 2

/-- Modelled from the spec: what the run consumes from its collaborators (section 6) and
from the arithmetic of `Real`.
* `apply` and `precondition` are the operator interface ("`apply(out, in)`; optional
  `precondition(out, in)`"), as functions of `in`.
* `sub` and `axpy` are the "linear-combination primitives" of the vector interface:
  `sub a b` is `a − b` and `axpy y a x` is `y + a·x`.
* `dotxy` and `norm_inf` are the reductions of section 4.1 (the member functions declared
  at header lines 57-58), taken with `local = false`.
* `negligible d ref` is the breakdown test of section 4.4: the denominator `d` is
  numerically zero relative to the reference scale `ref`.  The threshold is
  "an implementation-specific numerical-tolerance choice" (section 9), so the test is a
  parameter. -/
structure Collab (S V : Type) where
  neg : S → S
  mul : S → S → S
  div : S → S → S
  max : S → S → S
  le : S → S → Bool
  negligible : S → S → Bool
  apply : V → V
  precondition : Option (V → V)
  sub : V → V → V
  axpy : V → S → V → V
  dotxy : V → V → S
  norm_inf : V → S

/-- The outcome of one iteration of a Krylov loop: the tolerance was met, a breakdown was
detected, or the loop goes on; each with the state the iteration leaves. -/
inductive Step (σ : Type) where
  | converged (st : σ)
  | breakdown (st : σ)
  | next (st : σ)

/-- The three kinds of outcome of an iteration. -/
inductive StepKind where
  | converged
  | breakdown
  | next
  deriving DecidableEq, Repr

/-- The kind of an outcome. -/
def Step.kind {σ : Type} : Step σ → StepKind
  | .converged _ => .converged
  | .breakdown _ => .breakdown
  | .next _ => .next

/-- Modelled from the spec: the iteration-count enforcement of section 4.4.  `budget` is
the number of iterations still allowed and `done` the number performed so far.  An
iteration that meets the tolerance ends the run with Success and is counted; a breakdown
ends it at once with LossOfPrecision ("immediate termination ... rather than continuing to
iterate on meaningless updates"), the broken iteration is not counted; "reaching
`max_iterations` without satisfying the tolerance terminates with IterationsExceeded".
The state found so far is returned in every case ("never discarded"). -/
def krylovLoop {σ : Type} (step : σ → Step σ) : Nat → Nat → σ → Status × Nat × σ
  | 0, done, st => (Status.IterationsExceeded, done, st)
  | budget + 1, done, st =>
    match step st with
    | .converged st1 => (Status.Success, done + 1, st1)
    | .breakdown st1 => (Status.LossOfPrecision, done, st1)
    | .next st1 => krylovLoop step budget (done + 1) st1

/-- Modelled from the spec: a run.  The tolerance is tested on the initial residual
before the first iteration, so that "zero right-hand side with zero initial guess must
return Success with `iterations_performed == 0`" (section 8); otherwise the loop runs
with the budget `max_iterations`. -/
def krylovRun {σ : Type} (step : σ → Step σ) (conv0 : Bool) (maxiter : Nat) (st0 : σ) :
    Status × Nat × σ :=
  if conv0 then (Status.Success, 0, st0) else krylovLoop step maxiter 0 st0

/-- The outcome of iteration number `k + 1` of the recurrence started at `st`, when the
iterations before it all went on; `none` when an earlier iteration ended the recurrence.
This is the recurrence alone, with no budget and no counting. -/
def iterationOutcome {σ : Type} (step : σ → Step σ) : Nat → σ → Option StepKind
  | 0, st => some (step st).kind
  | k + 1, st =>
    match step st with
    | .next st1 => iterationOutcome step k st1
    | _ => none

section Run

variable {S V : Type}

/-- Modelled from the spec: the stopping threshold of section 4.4,
`max(eps_rel · ‖r₀‖, eps_abs)`. -/
def tolerance (o : Collab S V) (eps_rel eps_abs rnorm0 : S) : S :=
  o.max (o.mul eps_rel rnorm0) eps_abs

/-- Modelled from the spec: the convergence test of section 4.4, `‖r‖ ≤ tol` in the
infinity norm. -/
def withinTolerance (o : Collab S V) (tol : S) (r : V) : Bool :=
  o.le (o.norm_inf r) tol

/-- Modelled from the spec: "z = precondition(r) or r if no preconditioner"
(section 4.2). -/
def preconditioned (o : Collab S V) (r : V) : V :=
  match o.precondition with
  | some m => m r
  | none => r

/-- The vectors and the scalar the CG recurrence carries from one iteration to the next
(section 4.2). -/
structure CGState (S V : Type) where
  x : V
  r : V
  p : V
  rho : S

/-- Modelled from the spec: steps 1-3 of section 4.2: `r₀ = b − A·x₀`,
`z₀ = precondition(r₀)` or `r₀`, `p₀ = z₀`, `ρ₀ = dot(r₀, z₀)`. -/
def cgInit (o : Collab S V) (x0 b : V) : CGState S V :=
  let r0 := o.sub b (o.apply x0)
  let z0 := preconditioned o r0
  { x := x0, r := r0, p := z0, rho := o.dotxy r0 z0 }

/-- Modelled from the spec: one pass of the loop of section 4.2, step 4, with the
breakdown tests of step 5 ("ρ or the denominator `dot(p,q)` becoming numerically zero
relative to its history"): `ρ` is compared with its initial value `ρ₀`, the denominator
`dot(p,q)` with its numerator `ρ`.
`q = A·p; α = ρ / dot(p, q); x += α·p; r -= α·q; check convergence; z = precondition(r)
or r; ρ_new = dot(r, z); β = ρ_new/ρ; p = z + β·p; ρ = ρ_new`. -/
def cgStep (o : Collab S V) (tol rho0 : S) (st : CGState S V) : Step (CGState S V) :=
  if o.negligible st.rho rho0 then Step.breakdown st
  else
    let q := o.apply st.p
    let pq := o.dotxy st.p q
    if o.negligible pq st.rho then Step.breakdown st
    else
      let alpha := o.div st.rho pq
      let x := o.axpy st.x alpha st.p
      let r := o.axpy st.r (o.neg alpha) q
      if withinTolerance o tol r then Step.converged { st with x := x, r := r }
      else
        let z := preconditioned o r
        let rhoNew := o.dotxy r z
        let beta := o.div rhoNew st.rho
        Step.next { x := x, r := r, p := o.axpy z beta st.p, rho := rhoNew }

/-- What a BiCGStab iteration leaves for the next one to compute `β` and `p` from
(section 4.3): the search direction `p`, `v = A·p`, and the scalars `ρ`, `α`, `ω`. -/
structure BiCGStabPrev (S V : Type) where
  p : V
  v : V
  rho : S
  alpha : S
  omega : S

/-- The state of the BiCGStab recurrence (section 4.3): the iterate `x`, the residual `r`,
the shadow residual `rh` (fixed at the start), and what the previous iteration left
(`none` before the first iteration). -/
structure BiCGStabState (S V : Type) where
  x : V
  r : V
  rh : V
  prev : Option (BiCGStabPrev S V)

/-- Modelled from the spec: the start of BiCGStab: `r₀ = b − A·x₀`, and the shadow
residual is `r₀`. -/
def bicgstabInit (o : Collab S V) (x0 b : V) : BiCGStabState S V :=
  let r0 := o.sub b (o.apply x0)
  { x := x0, r := r0, rh := r0, prev := none }

/-- Modelled from the spec: one iteration of section 4.3.  "compute ρ = dot(shadow_r0, r);
detect breakdown if |ρ| is negligible relative to the initial residual norm; compute β from
the ratio of successive ρ values and the previous ω; update p; compute v = A·p; compute
α = ρ / dot(shadow_r0, v); form intermediate vector s = r − α·v; check early convergence on
‖s‖; compute t = A·s; compute ω = dot(t,s)/dot(t,t) (breakdown if denominator ≈ 0); update
x += α·p + ω·s; update r = s − ω·t; check convergence on ‖r‖."
By section 4.4 every denominator is tested before the division: `ω` of the previous
iteration against `α`, `dot(shadow_r0, v)` against `ρ`, `dot(t,t)` against `dot(t,s)`.
`β = (ρ/ρ_prev)·(α/ω)` and `p = r + β·(p − ω·v)`; in the first iteration `p = r`.
On early convergence the half step `x += α·p`, whose residual `s` is, is the result. -/
def bicgstabStep (o : Collab S V) (tol rnorm0 : S) (st : BiCGStabState S V) :
    Step (BiCGStabState S V) :=
  let rho := o.dotxy st.rh st.r
  if o.negligible rho rnorm0 then Step.breakdown st
  else
    let dir : Option V :=
      match st.prev with
      | none => some st.r
      | some pv =>
        if o.negligible pv.omega pv.alpha then none
        else
          let beta := o.mul (o.div rho pv.rho) (o.div pv.alpha pv.omega)
          some (o.axpy st.r beta (o.axpy pv.p (o.neg pv.omega) pv.v))
    match dir with
    | none => Step.breakdown st
    | some p =>
      let v := o.apply p
      let rhv := o.dotxy st.rh v
      if o.negligible rhv rho then Step.breakdown st
      else
        let alpha := o.div rho rhv
        let s := o.axpy st.r (o.neg alpha) v
        if withinTolerance o tol s then
          Step.converged { st with x := o.axpy st.x alpha p, r := s }
        else
          let t := o.apply s
          let tt := o.dotxy t t
          let ts := o.dotxy t s
          if o.negligible tt ts then Step.breakdown st
          else
            let omega := o.div ts tt
            let x := o.axpy (o.axpy st.x alpha p) omega s
            let r := o.axpy s (o.neg omega) t
            let st1 : BiCGStabState S V :=
              { x := x, r := r, rh := st.rh,
                prev := some { p := p, v := v, rho := rho, alpha := alpha, omega := omega } }
            if withinTolerance o tol r then Step.converged st1 else Step.next st1

/-- Modelled from the spec: `int solve_cg (MultiFab& solnL, const MultiFab& rhsL,
Real eps_rel, Real eps_abs)` (header lines 63-66): the CG run of sections 4.2 and 4.4 with
the budget `maxiter`.  Returns the status code, the solution written to `solnL`, and the
solver object, whose `iter` is the number of iterations performed. -/
def MLCGSolver.solve_cg (o : Collab S V) (s : MLCGSolver) (solnL rhsL : V)
    (eps_rel eps_abs : S) : Int × V × MLCGSolver :=
  let st0 := cgInit o solnL rhsL
  let tol := tolerance o eps_rel eps_abs (o.norm_inf st0.r)
  let res := krylovRun (cgStep o tol st0.rho) (withinTolerance o tol st0.r) s.maxiter.toNat st0
  (res.1.code, res.2.2.x, { s with iter := (res.2.1 : Int) })

/-- Modelled from the spec: `int solve_bicgstab (MultiFab& solnL, const MultiFab& rhsL,
Real eps_rel, Real eps_abs)` (header lines 59-62): the BiCGStab run of sections 4.3 and
4.4 with the budget `maxiter`. -/
def MLCGSolver.solve_bicgstab (o : Collab S V) (s : MLCGSolver) (solnL rhsL : V)
    (eps_rel eps_abs : S) : Int × V × MLCGSolver :=
  let st0 := bicgstabInit o solnL rhsL
  let rnorm0 := o.norm_inf st0.r
  let tol := tolerance o eps_rel eps_abs rnorm0
  let res := krylovRun (bicgstabStep o tol rnorm0) (withinTolerance o tol st0.r)
    s.maxiter.toNat st0
  (res.1.code, res.2.2.x, { s with iter := (res.2.1 : Int) })

/-- Modelled from the spec: `int solve (MultiFab& solnL, const MultiFab& rhsL,
Real eps_rel, Real eps_abs)` (header lines 38-41; the overload on `Any` at lines 43-46 is
the same with another `V`).  Section 4.5: "The facade selects between CG and BiCGStab
purely by configuration flag".
The header documents the call as returning the `int` 0, 1 or 2 and shows no other way
out of it, and no accessor of the class rejects a value; so the run is made with the
tolerances and the budget it is given, whatever they are.  A budget below one allows no
iteration. -/
def MLCGSolver.solve (o : Collab S V) (s : MLCGSolver) (solnL rhsL : V)
    (eps_rel eps_abs : S) : Int × V × MLCGSolver :=
  match s.solver_type with
  | CGType.BiCGStab => s.solve_bicgstab o solnL rhsL eps_rel eps_abs
  | CGType.CG => s.solve_cg o solnL rhsL eps_rel eps_abs

/-! ### The recurrences as sequences

The runs above are loops with early exits.  What they report is stated against the
recurrences of sections 4.2 and 4.3 written as plain sequences of states, with no test and
no exit, and against the list of the tests a pass makes, in the order it makes them. -/

/-- One test of a pass: a denominator `d` against its reference scale `ref` (the breakdown
test of section 4.4), or a residual against the stopping threshold (the convergence test
of section 4.4). -/
inductive Check (S V : Type) where
  | denominator (d ref : S)
  | residual (r : V)

/-- A test fires when it ends the run: the denominator is negligible relative to its
reference, or the infinity norm of the residual is at most the threshold `tol`. -/
def Check.fires (o : Collab S V) (tol : S) : Check S V → Bool
  | .denominator d ref => o.negligible d ref
  | .residual r => o.le (o.norm_inf r) tol

/-- The kind of outcome the tests of a pass give: the first test that fires decides, a
denominator for a breakdown and a residual for convergence; with no test firing the pass
goes on. -/
def firstFiringKind (o : Collab S V) (tol : S) (cs : List (Check S V)) : StepKind :=
  match cs.find? (Check.fires o tol) with
  | none => StepKind.next
  | some (.denominator _ _) => StepKind.breakdown
  | some (.residual _) => StepKind.converged

/-- The CG recurrence of section 4.2, step 4, as a map from one set of iterates to the
next: `α = ρ / dot(p, A·p)`, `x + α·p`, `r − α·A·p`, `z = precondition(r)` or `r`,
`ρ_new = dot(r, z)`, `p = z + (ρ_new/ρ)·p`. -/
def cgAdvance (o : Collab S V) (st : CGState S V) : CGState S V :=
  let q := o.apply st.p
  let alpha := o.div st.rho (o.dotxy st.p q)
  let r := o.axpy st.r (o.neg alpha) q
  let z := preconditioned o r
  { x := o.axpy st.x alpha st.p, r := r, p := o.axpy z (o.div (o.dotxy r z) st.rho) st.p,
    rho := o.dotxy r z }

/-- The iterates of CG after `k` passes, from the initial guess `x0` and right-hand side
`b`. -/
def cgSeq (o : Collab S V) (x0 b : V) : Nat → CGState S V
  | 0 => cgInit o x0 b
  | k + 1 => cgAdvance o (cgSeq o x0 b k)

/-- The tests of a CG pass from the iterates `st`, in order: `ρ` against its initial value
`ρ₀`, the denominator `dot(p, A·p)` against its numerator `ρ`, and the new residual
against the threshold. -/
def cgChecks (o : Collab S V) (rho0 : S) (st : CGState S V) : List (Check S V) :=
  [Check.denominator st.rho rho0,
   Check.denominator (o.dotxy st.p (o.apply st.p)) st.rho,
   Check.residual (cgAdvance o st).r]

/-- The quantities of one BiCGStab pass (section 4.3), by the names the section gives
them; `rhv` is `dot(shadow_r0, v)`, `tt` is `dot(t,t)` and `ts` is `dot(t,s)`. -/
structure BiCGStabPass (S V : Type) where
  rho : S
  p : V
  v : V
  rhv : S
  alpha : S
  s : V
  tt : S
  ts : S
  omega : S
  x : V
  r : V

/-- The formulas of section 4.3 for one pass from the state `st`: `ρ = dot(shadow_r0, r)`,
`p = r` in the first pass and `r + (ρ/ρ_prev)·(α/ω)·(p − ω·v)` after it, `v = A·p`,
`α = ρ / dot(shadow_r0, v)`, `s = r − α·v`, `t = A·s`, `ω = dot(t,s)/dot(t,t)`,
`x + α·p + ω·s`, `r = s − ω·t`. -/
def bicgstabPass (o : Collab S V) (st : BiCGStabState S V) : BiCGStabPass S V :=
  let rho := o.dotxy st.rh st.r
  let p :=
    match st.prev with
    | none => st.r
    | some pv =>
      o.axpy st.r (o.mul (o.div rho pv.rho) (o.div pv.alpha pv.omega))
        (o.axpy pv.p (o.neg pv.omega) pv.v)
  let v := o.apply p
  let rhv := o.dotxy st.rh v
  let alpha := o.div rho rhv
  let s := o.axpy st.r (o.neg alpha) v
  let t := o.apply s
  let tt := o.dotxy t t
  let ts := o.dotxy t s
  let omega := o.div ts tt
  { rho := rho, p := p, v := v, rhv := rhv, alpha := alpha, s := s, tt := tt, ts := ts,
    omega := omega, x := o.axpy (o.axpy st.x alpha p) omega s, r := o.axpy s (o.neg omega) t }

/-- The BiCGStab recurrence as a map from one state to the next. -/
def bicgstabAdvance (o : Collab S V) (st : BiCGStabState S V) : BiCGStabState S V :=
  let q := bicgstabPass o st
  { x := q.x, r := q.r, rh := st.rh,
    prev := some { p := q.p, v := q.v, rho := q.rho, alpha := q.alpha, omega := q.omega } }

/-- The state of BiCGStab after `k` passes. -/
def bicgstabSeq (o : Collab S V) (x0 b : V) : Nat → BiCGStabState S V
  | 0 => bicgstabInit o x0 b
  | k + 1 => bicgstabAdvance o (bicgstabSeq o x0 b k)

/-- The tests of a BiCGStab pass from the state `st`, in order: `ρ` against the initial
residual norm; after the first pass, the previous `ω` against the previous `α`;
`dot(shadow_r0, v)` against `ρ`; the intermediate residual `s` against the threshold;
`dot(t,t)` against `dot(t,s)`; the new residual `r` against the threshold. -/
def bicgstabChecks (o : Collab S V) (rnorm0 : S) (st : BiCGStabState S V) :
    List (Check S V) :=
  let q := bicgstabPass o st
  Check.denominator q.rho rnorm0 ::
    ((match st.prev with
      | none => []
      | some pv => [Check.denominator pv.omega pv.alpha]) ++
    [Check.denominator q.rhv q.rho, Check.residual q.s, Check.denominator q.tt q.ts,
     Check.residual q.r])

/-- The tests of pass number `k + 1` of the algorithm `typ` on the system with initial
guess `solnL` and right-hand side `rhsL`, made on the iterates of the recurrence after `k`
passes. -/
def passChecks (o : Collab S V) (typ : CGType) (solnL rhsL : V) (k : Nat) :
    List (Check S V) :=
  match typ with
  | CGType.BiCGStab =>
    bicgstabChecks o (o.norm_inf (bicgstabInit o solnL rhsL).r) (bicgstabSeq o solnL rhsL k)
  | CGType.CG => cgChecks o (cgInit o solnL rhsL).rho (cgSeq o solnL rhsL k)

/-- What a run with budget `n` reports as status code `c` and iteration count `i`, against
the initial residual `r0`, the threshold `tol` and the tests `checks k` of pass `k + 1`:
0 exactly when the initial residual or, with every earlier test silent, a residual of a
pass within the budget meets the threshold; 1 exactly when, the same way, a denominator is
negligible; 2 exactly when no test of the budget's passes fires; the count is within the
budget and is the budget when the code is 2. -/
def ReportsRun (o : Collab S V) (r0 : V) (tol : S) (checks : Nat → List (Check S V))
    (n : Nat) (c i : Int) : Prop :=
  (c = 0 ∨ c = 1 ∨ c = 2) ∧
  (c = 0 ↔ (o.le (o.norm_inf r0) tol = true ∨
    ∃ k, k < n ∧ (∀ j, j < k → ∀ ch ∈ checks j, ch.fires o tol = false) ∧
      ∃ pre r post, checks k = pre ++ Check.residual r :: post ∧
        (∀ ch ∈ pre, ch.fires o tol = false) ∧ o.le (o.norm_inf r) tol = true)) ∧
  (c = 1 ↔ (o.le (o.norm_inf r0) tol = false ∧
    ∃ k, k < n ∧ (∀ j, j < k → ∀ ch ∈ checks j, ch.fires o tol = false) ∧
      ∃ pre d ref post, checks k = pre ++ Check.denominator d ref :: post ∧
        (∀ ch ∈ pre, ch.fires o tol = false) ∧ o.negligible d ref = true)) ∧
  (c = 2 ↔ (o.le (o.norm_inf r0) tol = false ∧
    ∀ k, k < n → ∀ ch ∈ checks k, ch.fires o tol = false)) ∧
  0 ≤ i ∧ i ≤ (n : Int) ∧ (c = 2 → i = (n : Int))

end Run

/-- A one-cell instance of the collaborators over the integers: vectors are single
integers, the operator is multiplication by `a`, there is no preconditioner, division is
integer division, and a denominator is negligible when it is zero. -/
def cellOps (a : Int) : Collab Int Int :=
  { neg := fun u => -u, mul := fun u v => u * v, div := fun u v => u / v,
    max := fun u v => if u ≤ v then v else u, le := fun u v => decide (u ≤ v),
    negligible := fun d _ => decide (d = 0),
    apply := fun v => a * v, precondition := none, sub := fun u v => u - v,
    axpy := fun y c x => y + c * x, dotxy := fun u v => u * v,
    norm_inf := fun v => |v| }

/-! ## The loop and the recurrence -/

theorem iterationOutcome_zero {σ : Type} (step : σ → Step σ) (st : σ) :
    iterationOutcome step 0 st = some (step st).kind := rfl

theorem iterationOutcome_succ_next {σ : Type} (step : σ → Step σ) (k : Nat) (st st1 : σ)
    (h : step st = Step.next st1) :
    iterationOutcome step (k + 1) st = iterationOutcome step k st1 := by
  simp [iterationOutcome, h]

theorem iterationOutcome_succ_stop {σ : Type} (step : σ → Step σ) (k : Nat) (st : σ)
    (h : (step st).kind ≠ StepKind.next) : iterationOutcome step (k + 1) st = none := by
  cases hs : step st with
  | converged st1 => simp [iterationOutcome, hs]
  | breakdown st1 => simp [iterationOutcome, hs]
  | next st1 => simp [hs, Step.kind] at h

/-- The iteration count the loop reports lies between the count it started from and that
count plus the budget. -/
theorem krylovLoop_count_bounds {σ : Type} (step : σ → Step σ) (n d : Nat) (st : σ) :
    d ≤ (krylovLoop step n d st).2.1 ∧ (krylovLoop step n d st).2.1 ≤ d + n := by
  induction n generalizing d st with
  | zero => simp [krylovLoop]
  | succ n ih =>
    cases hs : step st with
    | converged st1 => simp [krylovLoop, hs]
    | breakdown st1 => simp [krylovLoop, hs]
    | next st1 =>
      have h := ih (d + 1) st1
      simp only [krylovLoop, hs]
      omega

/-- The loop ends with Success exactly when some iteration within the budget meets the
tolerance. -/
theorem krylovLoop_success_iff {σ : Type} (step : σ → Step σ) (n d : Nat) (st : σ) :
    (krylovLoop step n d st).1 = Status.Success ↔
      ∃ k, k < n ∧ iterationOutcome step k st = some StepKind.converged := by
  induction n generalizing d st with
  | zero => simp [krylovLoop]
  | succ n ih =>
    cases hs : step st with
    | converged st1 =>
      constructor
      · intro _
        exact ⟨0, Nat.succ_pos n, by simp [iterationOutcome, hs, Step.kind]⟩
      · intro _
        simp [krylovLoop, hs]
    | breakdown st1 =>
      constructor
      · intro h
        simp [krylovLoop, hs] at h
      · rintro ⟨k, -, hk⟩
        cases k <;> simp [iterationOutcome, hs, Step.kind] at hk
    | next st1 =>
      simp only [krylovLoop, hs]
      rw [ih (d + 1) st1]
      constructor
      · rintro ⟨k, hk, h⟩
        exact ⟨k + 1, Nat.succ_lt_succ hk, by rw [iterationOutcome_succ_next step k st st1 hs]; exact h⟩
      · rintro ⟨k, hk, h⟩
        cases k with
        | zero => simp [iterationOutcome, hs, Step.kind] at h
        | succ k =>
          rw [iterationOutcome_succ_next step k st st1 hs] at h
          exact ⟨k, Nat.lt_of_succ_lt_succ hk, h⟩

/-- The loop ends with LossOfPrecision exactly when some iteration within the budget
detects a breakdown. -/
theorem krylovLoop_breakdown_iff {σ : Type} (step : σ → Step σ) (n d : Nat) (st : σ) :
    (krylovLoop step n d st).1 = Status.LossOfPrecision ↔
      ∃ k, k < n ∧ iterationOutcome step k st = some StepKind.breakdown := by
  induction n generalizing d st with
  | zero => simp [krylovLoop]
  | succ n ih =>
    cases hs : step st with
    | converged st1 =>
      constructor
      · intro h
        simp [krylovLoop, hs] at h
      · rintro ⟨k, -, hk⟩
        cases k <;> simp [iterationOutcome, hs, Step.kind] at hk
    | breakdown st1 =>
      constructor
      · intro _
        exact ⟨0, Nat.succ_pos n, by simp [iterationOutcome, hs, Step.kind]⟩
      · intro _
        simp [krylovLoop, hs]
    | next st1 =>
      simp only [krylovLoop, hs]
      rw [ih (d + 1) st1]
      constructor
      · rintro ⟨k, hk, h⟩
        exact ⟨k + 1, Nat.succ_lt_succ hk, by rw [iterationOutcome_succ_next step k st st1 hs]; exact h⟩
      · rintro ⟨k, hk, h⟩
        cases k with
        | zero => simp [iterationOutcome, hs, Step.kind] at h
        | succ k =>
          rw [iterationOutcome_succ_next step k st st1 hs] at h
          exact ⟨k, Nat.lt_of_succ_lt_succ hk, h⟩

/-- The loop ends with IterationsExceeded exactly when every iteration within the budget
goes on; the count it reports is then the whole budget. -/
theorem krylovLoop_exceeded_iff {σ : Type} (step : σ → Step σ) (n d : Nat) (st : σ) :
    (krylovLoop step n d st).1 = Status.IterationsExceeded ↔
      ∀ k, k < n → iterationOutcome step k st = some StepKind.next := by
  induction n generalizing d st with
  | zero => simp [krylovLoop]
  | succ n ih =>
    cases hs : step st with
    | converged st1 =>
      constructor
      · intro h
        simp [krylovLoop, hs] at h
      · intro h
        have h0 := h 0 (Nat.succ_pos n)
        simp [iterationOutcome, hs, Step.kind] at h0
    | breakdown st1 =>
      constructor
      · intro h
        simp [krylovLoop, hs] at h
      · intro h
        have h0 := h 0 (Nat.succ_pos n)
        simp [iterationOutcome, hs, Step.kind] at h0
    | next st1 =>
      simp only [krylovLoop, hs]
      rw [ih (d + 1) st1]
      constructor
      · intro h k hk
        cases k with
        | zero => simp [iterationOutcome, hs, Step.kind]
        | succ k =>
          rw [iterationOutcome_succ_next step k st st1 hs]
          exact h k (Nat.lt_of_succ_lt_succ hk)
      · intro h k hk
        have hk1 := h (k + 1) (Nat.succ_lt_succ hk)
        rw [iterationOutcome_succ_next step k st st1 hs] at hk1
        exact hk1

theorem krylovLoop_exceeded_count {σ : Type} (step : σ → Step σ) (n d : Nat) (st : σ)
    (h : (krylovLoop step n d st).1 = Status.IterationsExceeded) :
    (krylovLoop step n d st).2.1 = d + n := by
  induction n generalizing d st with
  | zero => simp [krylovLoop]
  | succ n ih =>
    cases hs : step st with
    | converged st1 => simp [krylovLoop, hs] at h
    | breakdown st1 => simp [krylovLoop, hs] at h
    | next st1 =>
      simp only [krylovLoop, hs] at h ⊢
      rw [ih (d + 1) st1 h]
      omega

/-- The status codes are 0, 1 and 2, one for each status. -/
theorem Status.code_cases (t : Status) :
    (t.code = 0 ∨ t.code = 1 ∨ t.code = 2) ∧ (t.code = 0 ↔ t = Status.Success) ∧
      (t.code = 1 ↔ t = Status.LossOfPrecision) ∧
      (t.code = 2 ↔ t = Status.IterationsExceeded) := by
  cases t <;> simp [Status.code]

/-- A run: the status, read off the initial test and the recurrence, and the bounds on
the count. -/
theorem krylovRun_spec {σ : Type} (step : σ → Step σ) (conv0 : Bool) (n : Nat) (st : σ) :
    ((krylovRun step conv0 n st).1 = Status.Success ↔
        (conv0 = true ∨ ∃ k, k < n ∧ iterationOutcome step k st = some StepKind.converged)) ∧
    ((krylovRun step conv0 n st).1 = Status.LossOfPrecision ↔
        (conv0 = false ∧ ∃ k, k < n ∧ iterationOutcome step k st = some StepKind.breakdown)) ∧
    ((krylovRun step conv0 n st).1 = Status.IterationsExceeded ↔
        (conv0 = false ∧ ∀ k, k < n → iterationOutcome step k st = some StepKind.next)) ∧
    (krylovRun step conv0 n st).2.1 ≤ n ∧
    ((krylovRun step conv0 n st).1 = Status.IterationsExceeded →
        (krylovRun step conv0 n st).2.1 = n) := by
  cases conv0 with
  | true => simp [krylovRun]
  | false =>
    have hb := krylovLoop_count_bounds step n 0 st
    have hc := krylovLoop_exceeded_count step n 0 st
    simp only [krylovRun, Bool.false_eq_true, if_false, false_or, true_and]
    refine ⟨krylovLoop_success_iff step n 0 st, krylovLoop_breakdown_iff step n 0 st,
      krylovLoop_exceeded_iff step n 0 st, by omega, fun h => by rw [hc h]; omega⟩

/-! ## The runs against the recurrences -/

section RunFacts

variable {S V : Type}

theorem firstFiringKind_next_iff (o : Collab S V) (tol : S) (cs : List (Check S V)) :
    firstFiringKind o tol cs = StepKind.next ↔ ∀ ch ∈ cs, ch.fires o tol = false := by
  unfold firstFiringKind
  cases h : cs.find? (Check.fires o tol) with
  | none =>
    simp only [true_iff]
    intro ch hch
    have := List.find?_eq_none.mp h ch hch
    simpa using this
  | some c =>
    have hc := List.find?_some h
    have hm := List.mem_of_find?_eq_some h
    cases c with
    | denominator d ref =>
      simp only [false_iff, reduceCtorEq]
      intro hall
      rw [hall _ hm] at hc
      cases hc
    | residual r =>
      simp only [false_iff, reduceCtorEq]
      intro hall
      rw [hall _ hm] at hc
      cases hc

theorem firstFiringKind_converged_iff (o : Collab S V) (tol : S) (cs : List (Check S V)) :
    firstFiringKind o tol cs = StepKind.converged ↔
      ∃ pre r post, cs = pre ++ Check.residual r :: post ∧
        (∀ ch ∈ pre, ch.fires o tol = false) ∧ o.le (o.norm_inf r) tol = true := by
  constructor
  · intro h
    unfold firstFiringKind at h
    cases hf : cs.find? (Check.fires o tol) with
    | none => simp [hf] at h
    | some c =>
      cases c with
      | denominator d ref => simp [hf] at h
      | residual r =>
        obtain ⟨hp, pre, post, hcs, hpre⟩ := List.find?_eq_some.mp hf
        exact ⟨pre, r, post, hcs, fun ch hch => by simpa using hpre ch hch, hp⟩
  · rintro ⟨pre, r, post, hcs, hpre, hr⟩
    have hf : cs.find? (Check.fires o tol) = some (Check.residual r) :=
      List.find?_eq_some.mpr ⟨hr, pre, post, hcs, fun ch hch => by simp [hpre ch hch]⟩
    simp [firstFiringKind, hf]

theorem firstFiringKind_breakdown_iff (o : Collab S V) (tol : S) (cs : List (Check S V)) :
    firstFiringKind o tol cs = StepKind.breakdown ↔
      ∃ pre d ref post, cs = pre ++ Check.denominator d ref :: post ∧
        (∀ ch ∈ pre, ch.fires o tol = false) ∧ o.negligible d ref = true := by
  constructor
  · intro h
    unfold firstFiringKind at h
    cases hf : cs.find? (Check.fires o tol) with
    | none => simp [hf] at h
    | some c =>
      cases c with
      | denominator d ref =>
        obtain ⟨hp, pre, post, hcs, hpre⟩ := List.find?_eq_some.mp hf
        exact ⟨pre, d, ref, post, hcs, fun ch hch => by simpa using hpre ch hch, hp⟩
      | residual r => simp [hf] at h
  · rintro ⟨pre, d, ref, post, hcs, hpre, hd⟩
    have hf : cs.find? (Check.fires o tol) = some (Check.denominator d ref) :=
      List.find?_eq_some.mpr ⟨hd, pre, post, hcs, fun ch hch => by simp [hpre ch hch]⟩
    simp [firstFiringKind, hf]

/-- The outcome of a pass of the loop, read off the recurrence: when every pass of the
loop has the kind its tests give and goes on to the next state of the recurrence, pass
`k + 1` is reached with outcome `K` exactly when the tests of the first `k` passes are
silent and those of pass `k + 1` give `K`. -/
theorem iterationOutcome_iff_checks {σ : Type} (o : Collab S V) (tol : S) (step : σ → Step σ)
    (checks : σ → List (Check S V)) (adv : σ → σ)
    (hkind : ∀ st, (step st).kind = firstFiringKind o tol (checks st))
    (hnext : ∀ st st1, step st = Step.next st1 → st1 = adv st) (K : StepKind) (k : Nat)
    (st : σ) :
    iterationOutcome step k st = some K ↔
      (∀ j, j < k → firstFiringKind o tol (checks (adv^[j] st)) = StepKind.next) ∧
        firstFiringKind o tol (checks (adv^[k] st)) = K := by
  induction k generalizing st with
  | zero =>
    simp only [iterationOutcome, Option.some.injEq, hkind, Function.iterate_zero, id_eq]
    constructor
    · intro h
      exact ⟨fun j hj => absurd hj (Nat.not_lt_zero j), h⟩
    · intro h
      exact h.2
  | succ k ih =>
    cases hs : step st with
    | next st1 =>
      have hadv := hnext st st1 hs
      subst hadv
      rw [iterationOutcome_succ_next step k st _ hs, ih (adv st)]
      have h0 : firstFiringKind o tol (checks st) = StepKind.next := by
        rw [← hkind st, hs]
        rfl
      constructor
      · rintro ⟨hq, hK⟩
        refine ⟨?_, by rw [Function.iterate_succ_apply]; exact hK⟩
        intro j hj
        cases j with
        | zero => exact h0
        | succ j =>
          rw [Function.iterate_succ_apply]
          exact hq j (Nat.lt_of_succ_lt_succ hj)
      · rintro ⟨hq, hK⟩
        refine ⟨?_, by rw [Function.iterate_succ_apply] at hK; exact hK⟩
        intro j hj
        have := hq (j + 1) (Nat.succ_lt_succ hj)
        rw [Function.iterate_succ_apply] at this
        exact this
    | converged st1 =>
      have hk0 : firstFiringKind o tol (checks st) = StepKind.converged := by
        rw [← hkind st, hs]
        rfl
      rw [iterationOutcome_succ_stop step k st (by rw [hs]; simp [Step.kind])]
      constructor
      · intro h
        cases h
      · rintro ⟨hq, -⟩
        have := hq 0 (Nat.succ_pos k)
        rw [Function.iterate_zero, id_eq, hk0] at this
        cases this
    | breakdown st1 =>
      have hk0 : firstFiringKind o tol (checks st) = StepKind.breakdown := by
        rw [← hkind st, hs]
        rfl
      rw [iterationOutcome_succ_stop step k st (by rw [hs]; simp [Step.kind])]
      constructor
      · intro h
        cases h
      · rintro ⟨hq, -⟩
        have := hq 0 (Nat.succ_pos k)
        rw [Function.iterate_zero, id_eq, hk0] at this
        cases this

/-- A pass of the CG loop has the kind its tests give. -/
theorem cgStep_kind (o : Collab S V) (tol rho0 : S) (st : CGState S V) :
    (cgStep o tol rho0 st).kind = firstFiringKind o tol (cgChecks o rho0 st) := by
  unfold cgStep firstFiringKind cgChecks
  cases h1 : o.negligible st.rho rho0 with
  | true => simp [Step.kind, List.find?_cons, Check.fires, h1]
  | false =>
    cases h2 : o.negligible (o.dotxy st.p (o.apply st.p)) st.rho with
    | true => simp [Step.kind, List.find?_cons, Check.fires, h1, h2]
    | false =>
      cases h3 : o.le (o.norm_inf (cgAdvance o st).r) tol with
      | true =>
        have h3a := h3
        simp only [cgAdvance] at h3a
        simp [Step.kind, List.find?_cons, Check.fires, h1, h2, h3, withinTolerance, h3a]
      | false =>
        have h3a := h3
        simp only [cgAdvance] at h3a
        simp [Step.kind, List.find?_cons, Check.fires, h1, h2, h3, withinTolerance, h3a]

/-- A pass of the CG loop that goes on leaves the next iterates of the recurrence. -/
theorem cgStep_next (o : Collab S V) (tol rho0 : S) (st st1 : CGState S V)
    (h : cgStep o tol rho0 st = Step.next st1) : st1 = cgAdvance o st := by
  unfold cgStep at h
  dsimp only at h
  split_ifs at h
  cases h
  rfl

/-- The BiCGStab pass written on the quantities of `bicgstabPass`: the tests in their
order, each ending the pass when it fires. -/
theorem bicgstabStep_eq (o : Collab S V) (tol rnorm0 : S) (st : BiCGStabState S V) :
    bicgstabStep o tol rnorm0 st =
      if o.negligible (bicgstabPass o st).rho rnorm0 = true then Step.breakdown st
      else if (match st.prev with
          | none => false
          | some pv => o.negligible pv.omega pv.alpha) = true then Step.breakdown st
      else if o.negligible (bicgstabPass o st).rhv (bicgstabPass o st).rho = true then
        Step.breakdown st
      else if o.le (o.norm_inf (bicgstabPass o st).s) tol = true then
        Step.converged { st with
          x := o.axpy st.x (bicgstabPass o st).alpha (bicgstabPass o st).p,
          r := (bicgstabPass o st).s }
      else if o.negligible (bicgstabPass o st).tt (bicgstabPass o st).ts = true then
        Step.breakdown st
      else if o.le (o.norm_inf (bicgstabPass o st).r) tol = true then
        Step.converged (bicgstabAdvance o st)
      else Step.next (bicgstabAdvance o st) := by
  obtain ⟨x, r, rh, prev⟩ := st
  cases prev with
  | none => rfl
  | some pv =>
    unfold bicgstabStep
    dsimp only
    cases h : o.negligible pv.omega pv.alpha with
    | true =>
      simp only [if_true]
      split_ifs <;> rfl
    | false => rfl

/-- A pass of the BiCGStab loop has the kind its tests give. -/
theorem bicgstabStep_kind (o : Collab S V) (tol rnorm0 : S) (st : BiCGStabState S V) :
    (bicgstabStep o tol rnorm0 st).kind
      = firstFiringKind o tol (bicgstabChecks o rnorm0 st) := by
  rw [bicgstabStep_eq]
  unfold firstFiringKind bicgstabChecks
  dsimp only
  generalize bicgstabPass o st = q
  generalize bicgstabAdvance o st = st2
  obtain ⟨x, r, rh, prev⟩ := st
  cases prev with
  | none =>
    dsimp only
    cases h1 : o.negligible q.rho rnorm0 <;>
    cases h2 : o.negligible q.rhv q.rho <;>
    cases h3 : o.le (o.norm_inf q.s) tol <;>
    cases h4 : o.negligible q.tt q.ts <;>
    cases h5 : o.le (o.norm_inf q.r) tol <;>
    simp [Step.kind, List.find?_cons, Check.fires, h1, h2, h3, h4, h5]
  | some pv =>
    dsimp only
    cases h0 : o.negligible pv.omega pv.alpha <;>
    cases h1 : o.negligible q.rho rnorm0 <;>
    cases h2 : o.negligible q.rhv q.rho <;>
    cases h3 : o.le (o.norm_inf q.s) tol <;>
    cases h4 : o.negligible q.tt q.ts <;>
    cases h5 : o.le (o.norm_inf q.r) tol <;>
    simp [Step.kind, List.find?_cons, Check.fires, h0, h1, h2, h3, h4, h5]

/-- A pass of the BiCGStab loop that goes on leaves the next state of the recurrence. -/
theorem bicgstabStep_next (o : Collab S V) (tol rnorm0 : S) (st st1 : BiCGStabState S V)
    (h : bicgstabStep o tol rnorm0 st = Step.next st1) : st1 = bicgstabAdvance o st := by
  rw [bicgstabStep_eq] at h
  split_ifs at h
  cases h
  rfl

theorem cgSeq_eq_iterate (o : Collab S V) (x0 b : V) (k : Nat) :
    cgSeq o x0 b k = (cgAdvance o)^[k] (cgInit o x0 b) := by
  induction k with
  | zero => rfl
  | succ k ih => rw [Function.iterate_succ_apply', ← ih]; rfl

theorem bicgstabSeq_eq_iterate (o : Collab S V) (x0 b : V) (k : Nat) :
    bicgstabSeq o x0 b k = (bicgstabAdvance o)^[k] (bicgstabInit o x0 b) := by
  induction k with
  | zero => rfl
  | succ k ih => rw [Function.iterate_succ_apply', ← ih]; rfl

/-- A run of a loop whose passes follow a recurrence and its tests reports what
`ReportsRun` says, on the tests of the recurrence. -/
theorem reportsRun_krylovRun {σ : Type} (o : Collab S V) (r0 : V) (tol : S)
    (step : σ → Step σ) (checks : σ → List (Check S V)) (adv : σ → σ)
    (hkind : ∀ st, (step st).kind = firstFiringKind o tol (checks st))
    (hnext : ∀ st st1, step st = Step.next st1 → st1 = adv st)
    (st0 : σ) (seq : Nat → σ) (hseq : ∀ k, seq k = adv^[k] st0) (n : Nat) :
    ReportsRun o r0 tol (fun k => checks (seq k)) n
      (krylovRun step (o.le (o.norm_inf r0) tol) n st0).1.code
      ((krylovRun step (o.le (o.norm_inf r0) tol) n st0).2.1 : Int) := by
  obtain ⟨h1, h2, h3, h4, h5⟩ := krylovRun_spec step (o.le (o.norm_inf r0) tol) n st0
  obtain ⟨c0, c1, c2, c3⟩ :=
    Status.code_cases (krylovRun step (o.le (o.norm_inf r0) tol) n st0).1
  have hout : ∀ K k, iterationOutcome step k st0 = some K ↔
      (∀ j, j < k → ∀ ch ∈ checks (seq j), ch.fires o tol = false) ∧
        firstFiringKind o tol (checks (seq k)) = K := by
    intro K k
    rw [iterationOutcome_iff_checks o tol step checks adv hkind hnext K k st0, hseq k]
    constructor
    · rintro ⟨hq, hK⟩
      refine ⟨fun j hj => ?_, hK⟩
      rw [hseq j]
      exact (firstFiringKind_next_iff o tol _).mp (hq j hj)
    · rintro ⟨hq, hK⟩
      refine ⟨fun j hj => ?_, hK⟩
      have := hq j hj
      rw [hseq j] at this
      exact (firstFiringKind_next_iff o tol _).mpr this
  unfold ReportsRun
  refine ⟨c0, c1.trans (h1.trans ?_), c2.trans (h2.trans ?_), c3.trans (h3.trans ?_),
    Int.natCast_nonneg _, by exact_mod_cast h4, fun hc => by exact_mod_cast h5 (c3.mp hc)⟩
  · constructor
    · rintro (h | ⟨k, hk, hK⟩)
      · exact Or.inl h
      · obtain ⟨hq, hf⟩ := (hout _ k).mp hK
        exact Or.inr ⟨k, hk, hq, (firstFiringKind_converged_iff o tol _).mp hf⟩
    · rintro (h | ⟨k, hk, hq, hf⟩)
      · exact Or.inl h
      · exact Or.inr ⟨k, hk, (hout _ k).mpr ⟨hq, (firstFiringKind_converged_iff o tol _).mpr hf⟩⟩
  · constructor
    · rintro ⟨h, k, hk, hK⟩
      obtain ⟨hq, hf⟩ := (hout _ k).mp hK
      exact ⟨h, k, hk, hq, (firstFiringKind_breakdown_iff o tol _).mp hf⟩
    · rintro ⟨h, k, hk, hq, hf⟩
      exact ⟨h, k, hk, (hout _ k).mpr ⟨hq, (firstFiringKind_breakdown_iff o tol _).mpr hf⟩⟩
  · constructor
    · rintro ⟨h, hall⟩
      refine ⟨h, fun k hk => ?_⟩
      exact (firstFiringKind_next_iff o tol _).mp ((hout _ k).mp (hall k hk)).2
    · rintro ⟨h, hall⟩
      refine ⟨h, fun k hk => (hout _ k).mpr ⟨fun j hj => hall j (Nat.lt_trans hj hk), ?_⟩⟩
      exact (firstFiringKind_next_iff o tol _).mpr (hall k hk)

/-- The CG run reports what `ReportsRun` says, on the tests of the CG recurrence. -/
theorem solve_cg_reports (o : Collab S V) (s : MLCGSolver) (solnL rhsL : V)
    (eps_rel eps_abs : S) :
    ReportsRun o (o.sub rhsL (o.apply solnL))
      (o.max (o.mul eps_rel (o.norm_inf (o.sub rhsL (o.apply solnL)))) eps_abs)
      (passChecks o CGType.CG solnL rhsL) s.maxiter.toNat
      (s.solve_cg o solnL rhsL eps_rel eps_abs).1
      (s.solve_cg o solnL rhsL eps_rel eps_abs).2.2.iter :=
  reportsRun_krylovRun o (o.sub rhsL (o.apply solnL))
    (o.max (o.mul eps_rel (o.norm_inf (o.sub rhsL (o.apply solnL)))) eps_abs)
    (cgStep o _ (cgInit o solnL rhsL).rho) (cgChecks o (cgInit o solnL rhsL).rho) (cgAdvance o)
    (cgStep_kind o _ _) (cgStep_next o _ _) (cgInit o solnL rhsL) (cgSeq o solnL rhsL)
    (cgSeq_eq_iterate o solnL rhsL) s.maxiter.toNat

/-- The BiCGStab run reports what `ReportsRun` says, on the tests of the BiCGStab
recurrence. -/
theorem solve_bicgstab_reports (o : Collab S V) (s : MLCGSolver) (solnL rhsL : V)
    (eps_rel eps_abs : S) :
    ReportsRun o (o.sub rhsL (o.apply solnL))
      (o.max (o.mul eps_rel (o.norm_inf (o.sub rhsL (o.apply solnL)))) eps_abs)
      (passChecks o CGType.BiCGStab solnL rhsL) s.maxiter.toNat
      (s.solve_bicgstab o solnL rhsL eps_rel eps_abs).1
      (s.solve_bicgstab o solnL rhsL eps_rel eps_abs).2.2.iter :=
  reportsRun_krylovRun o (o.sub rhsL (o.apply solnL))
    (o.max (o.mul eps_rel (o.norm_inf (o.sub rhsL (o.apply solnL)))) eps_abs)
    (bicgstabStep o _ (o.norm_inf (bicgstabInit o solnL rhsL).r))
    (bicgstabChecks o (o.norm_inf (bicgstabInit o solnL rhsL).r)) (bicgstabAdvance o)
    (bicgstabStep_kind o _ _) (bicgstabStep_next o _ _) (bicgstabInit o solnL rhsL)
    (bicgstabSeq o solnL rhsL) (bicgstabSeq_eq_iterate o solnL rhsL) s.maxiter.toNat

/-- The facade reports the run selected by `solver_type`. -/
theorem solve_reports (o : Collab S V) (s : MLCGSolver) (solnL rhsL : V)
    (eps_rel eps_abs : S) :
    ReportsRun o (o.sub rhsL (o.apply solnL))
      (o.max (o.mul eps_rel (o.norm_inf (o.sub rhsL (o.apply solnL)))) eps_abs)
      (passChecks o s.solver_type solnL rhsL) s.maxiter.toNat
      (s.solve o solnL rhsL eps_rel eps_abs).1
      (s.solve o solnL rhsL eps_rel eps_abs).2.2.iter := by
  unfold MLCGSolver.solve
  cases h : s.solver_type with
  | BiCGStab => exact solve_bicgstab_reports o s solnL rhsL eps_rel eps_abs
  | CG => exact solve_cg_reports o s solnL rhsL eps_rel eps_abs

/-- The solve calls write the member `iter` and no other member. -/
theorem solve_frame (o : Collab S V) (s : MLCGSolver) (solnL rhsL : V)
    (eps_rel eps_abs : S) :
    (s.solve_cg o solnL rhsL eps_rel eps_abs).2.2 =
        { s with iter := (s.solve_cg o solnL rhsL eps_rel eps_abs).2.2.iter } ∧
      (s.solve_bicgstab o solnL rhsL eps_rel eps_abs).2.2 =
        { s with iter := (s.solve_bicgstab o solnL rhsL eps_rel eps_abs).2.2.iter } ∧
      (s.solve o solnL rhsL eps_rel eps_abs).2.2 =
        { s with iter := (s.solve o solnL rhsL eps_rel eps_abs).2.2.iter } := by
  refine ⟨rfl, rfl, ?_⟩
  have h : s.solve o solnL rhsL eps_rel eps_abs = s.solve_bicgstab o solnL rhsL eps_rel eps_abs ∨
      s.solve o solnL rhsL eps_rel eps_abs = s.solve_cg o solnL rhsL eps_rel eps_abs := by
    unfold MLCGSolver.solve
    cases s.solver_type
    · exact Or.inl rfl
    · exact Or.inr rfl
  rcases h with h | h
  · rw [h]
    rfl
  · rw [h]
    rfl

end RunFacts

/-! ## Sequences of setter calls -/

theorem orElse_getD {α : Type} (x : Option α) (a d : α) :
    (x.orElse (fun _ => some a)).getD d = x.getD a := by
  cases x <;> rfl

theorem runSetters_maxiter (cs : List SetterCall) (s : MLCGSolver) :
    (runSetters cs s).maxiter = (lastSetMaxIter cs).getD s.maxiter := by
  induction cs generalizing s with
  | nil => rfl
  | cons c cs ih =>
    cases c <;> simp only [runSetters, lastSetMaxIter, ih, orElse_getD] <;> rfl

theorem runSetters_nghost (cs : List SetterCall) (s : MLCGSolver) :
    (runSetters cs s).nghost = (lastSetNGhost cs).getD s.nghost := by
  induction cs generalizing s with
  | nil => rfl
  | cons c cs ih =>
    cases c <;> simp only [runSetters, lastSetNGhost, ih, orElse_getD] <;> rfl

theorem runSetters_verbose (cs : List SetterCall) (s : MLCGSolver) :
    (runSetters cs s).verbose = (lastSetVerbose cs).getD s.verbose := by
  induction cs generalizing s with
  | nil => rfl
  | cons c cs ih =>
    cases c <;> simp only [runSetters, lastSetVerbose, ih, orElse_getD] <;> rfl

theorem runSetters_solver_type (cs : List SetterCall) (s : MLCGSolver) :
    (runSetters cs s).solver_type = (lastSetSolver cs).getD s.solver_type := by
  induction cs generalizing s with
  | nil => rfl
  | cons c cs ih =>
    cases c <;> simp only [runSetters, lastSetSolver, ih, orElse_getD] <;> rfl

theorem runSetters_iter (cs : List SetterCall) (s : MLCGSolver) :
    (runSetters cs s).iter = s.iter := by
  induction cs generalizing s with
  | nil => rfl
  | cons c cs ih =>
    cases c <;> simp only [runSetters, ih] <;> rfl

theorem runSetters_maxiter_pos (cs : List SetterCall) (s : MLCGSolver)
    (hs : 0 < s.maxiter) (h : maxIterArgsPositive cs = true) : 0 < (runSetters cs s).maxiter := by
  induction cs generalizing s with
  | nil => exact hs
  | cons c cs ih =>
    cases c with
    | setMaxIter n =>
      simp only [maxIterArgsPositive, Bool.and_eq_true, decide_eq_true_eq] at h
      exact ih (s.setMaxIter n) h.1 h.2
    | setNGhost n => exact ih (s.setNGhost n) hs h
    | setVerbose n => exact ih (s.setVerbose n) hs h
    | setSolver t => exact ih (s.setSolver t) hs h

theorem runSetters_nghost_nonneg (cs : List SetterCall) (s : MLCGSolver)
    (hs : 0 ≤ s.nghost) (h : nGhostArgsNonneg cs = true) : 0 ≤ (runSetters cs s).nghost := by
  induction cs generalizing s with
  | nil => exact hs
  | cons c cs ih =>
    cases c with
    | setMaxIter n => exact ih (s.setMaxIter n) hs h
    | setNGhost n =>
      simp only [nGhostArgsNonneg, Bool.and_eq_true, decide_eq_true_eq] at h
      exact ih (s.setNGhost n) h.1 h.2
    | setVerbose n => exact ih (s.setVerbose n) hs h
    | setSolver t => exact ih (s.setSolver t) hs h

open MLCGSolver

/-- C2.  Each configuration getter returns the value most recently passed to its setter,
unmodified: right after the setter call, and after any further setter calls, where it is
the argument of the last call of its own setter. -/
theorem getter_returns_last_set_value (s : MLCGSolver) (n : Int) (cs : List SetterCall) :
    (getMaxIter (setMaxIter n s)).1 = n ∧
    (getNGhost (setNGhost n s)).1 = n ∧
    (getVerbose (setVerbose n s)).1 = n ∧
    (getMaxIter (runSetters cs (setMaxIter n s))).1 = (lastSetMaxIter cs).getD n ∧
    (getNGhost (runSetters cs (setNGhost n s))).1 = (lastSetNGhost cs).getD n ∧
    (getVerbose (runSetters cs (setVerbose n s))).1 = (lastSetVerbose cs).getD n :=
  ⟨rfl, rfl, rfl, runSetters_maxiter cs _, runSetters_nghost cs _, runSetters_verbose cs _⟩

/-- C3.  On a freshly constructed solver `getMaxIter()` returns 100 and `getNGhost()`
returns 0. -/
theorem fresh_solver_defaults (a_mlmg lp : Nat) (amrlev mglev : Int) (typ : Option CGType) :
    (getMaxIter (construct a_mlmg lp amrlev mglev typ)).1 = 100 ∧
    (getNGhost (construct a_mlmg lp amrlev mglev typ)).1 = 0 :=
  ⟨rfl, rfl⟩

/-- Counterexample to C4 as stated: after construction and `setMaxIter(0)` the getter
returns 0, which is not positive; the request for zero is stored. -/
theorem setMaxIter_zero_is_stored :
    (getMaxIter (runSetters [SetterCall.setMaxIter 0] (construct 0 0 0 0 none))).1 = 0 ∧
      ¬ 0 < (getMaxIter (runSetters [SetterCall.setMaxIter 0] (construct 0 0 0 0 none))).1 := by
  decide

/-- C4 (as amended).  In every solver state reached from construction by a finite sequence
of setter calls in which every `setMaxIter` argument is positive, `getMaxIter()` is
positive. -/
theorem getMaxIter_positive_of_positive_args (a_mlmg lp : Nat) (amrlev mglev : Int)
    (typ : Option CGType) (cs : List SetterCall) (h : maxIterArgsPositive cs = true) :
    0 < (getMaxIter (runSetters cs (construct a_mlmg lp amrlev mglev typ))).1 :=
  runSetters_maxiter_pos cs _ (show (0 : Int) < 100 by decide) h

/-- Witness of C4 (as amended). -/
theorem getMaxIter_positive_of_positive_args_witness :
    maxIterArgsPositive [SetterCall.setNGhost (-3), SetterCall.setMaxIter 7] = true ∧
      0 < (getMaxIter (runSetters [SetterCall.setNGhost (-3), SetterCall.setMaxIter 7]
        (construct 0 0 0 0 none))).1 :=
  ⟨by decide, getMaxIter_positive_of_positive_args 0 0 0 0 none
    [SetterCall.setNGhost (-3), SetterCall.setMaxIter 7] (by decide)⟩

/-- Counterexample to C5 as stated: after construction and `setNGhost(-1)` the getter
returns -1, which is negative. -/
theorem setNGhost_negative_is_stored :
    (getNGhost (runSetters [SetterCall.setNGhost (-1)] (construct 0 0 0 0 none))).1 = -1 ∧
      ¬ 0 ≤ (getNGhost (runSetters [SetterCall.setNGhost (-1)] (construct 0 0 0 0 none))).1 := by
  decide

/-- C5 (as amended).  In every solver state reached from construction by a finite sequence
of setter calls in which every `setNGhost` argument is non-negative, `getNGhost()` is
non-negative. -/
theorem getNGhost_nonneg_of_nonneg_args (a_mlmg lp : Nat) (amrlev mglev : Int)
    (typ : Option CGType) (cs : List SetterCall) (h : nGhostArgsNonneg cs = true) :
    0 ≤ (getNGhost (runSetters cs (construct a_mlmg lp amrlev mglev typ))).1 :=
  runSetters_nghost_nonneg cs _ (show (0 : Int) ≤ 0 by decide) h

/-- Witness of C5 (as amended). -/
theorem getNGhost_nonneg_of_nonneg_args_witness :
    nGhostArgsNonneg [SetterCall.setMaxIter 0, SetterCall.setNGhost 2] = true ∧
      0 ≤ (getNGhost (runSetters [SetterCall.setMaxIter 0, SetterCall.setNGhost 2]
        (construct 0 0 0 0 none))).1 :=
  ⟨by decide, getNGhost_nonneg_of_nonneg_args 0 0 0 0 none
    [SetterCall.setMaxIter 0, SetterCall.setNGhost 2] (by decide)⟩

/-- C6.  `getNumIters()` returns the sentinel -1 on a freshly constructed solver and still
returns -1 after any finite sequence of setter calls; the sentinel differs from every
non-negative integer, and every solve call leaves a non-negative `getNumIters()`, which
therefore differs from the sentinel. -/
theorem getNumIters_sentinel (a_mlmg lp : Nat) (amrlev mglev : Int) (typ : Option CGType)
    (cs : List SetterCall) :
    (getNumIters (construct a_mlmg lp amrlev mglev typ)).1 = -1 ∧
    (getNumIters (runSetters cs (construct a_mlmg lp amrlev mglev typ))).1 = -1 ∧
    (∀ n : Int, 0 ≤ n →
      (getNumIters (runSetters cs (construct a_mlmg lp amrlev mglev typ))).1 ≠ n) ∧
    (∀ (S V : Type) (o : Collab S V) (s : MLCGSolver) (solnL rhsL : V) (eps_rel eps_abs : S),
      0 ≤ (getNumIters (s.solve o solnL rhsL eps_rel eps_abs).2.2).1 ∧
      (getNumIters (s.solve o solnL rhsL eps_rel eps_abs).2.2).1 ≠ -1) := by
  have h1 : (getNumIters (runSetters cs (construct a_mlmg lp amrlev mglev typ))).1 = -1 :=
    runSetters_iter cs _
  refine ⟨rfl, h1, ?_, ?_⟩
  · intro n hn
    rw [h1]
    omega
  · intro S V o s solnL rhsL eps_rel eps_abs
    have h := (solve_reports o s solnL rhsL eps_rel eps_abs).2.2.2.2.1
    have h2 : (getNumIters (s.solve o solnL rhsL eps_rel eps_abs).2.2).1
        = (s.solve o solnL rhsL eps_rel eps_abs).2.2.iter := rfl
    rw [h2]
    omega

/-- Witness of C6: a solve call (one CG iteration on the one-cell system `1·x = 1`)
leaves `getNumIters()` at 1, not at the sentinel. -/
theorem getNumIters_sentinel_witness :
    (getNumIters (runSetters [SetterCall.setMaxIter 5] (construct 0 0 0 0 none))).1 = -1 ∧
      (construct 0 0 0 0 (some CGType.CG)).solve (cellOps 1) 0 1 0 0
        = (0, 1, { construct 0 0 0 0 (some CGType.CG) with iter := 1 }) ∧
      (0 : Int) ≤ 1 ∧ (1 : Int) ≠ -1 :=
  ⟨(getNumIters_sentinel 0 0 0 0 none [SetterCall.setMaxIter 5]).2.1, rfl,
    (getNumIters_sentinel 0 0 0 0 none []).2.2.2 Int Int (cellOps 1)
      (construct 0 0 0 0 (some CGType.CG)) 0 1 0 0⟩

/-- C7.  Configuration is mutated only by its own setter: each setter leaves the members
it is not the setter of unchanged, and the four getters leave the whole state unchanged. -/
theorem setters_and_getters_frame (s : MLCGSolver) (n : Int) (t : CGType) :
    ((setMaxIter n s).solver_type = s.solver_type ∧ (setMaxIter n s).verbose = s.verbose ∧
      (setMaxIter n s).nghost = s.nghost ∧ (setMaxIter n s).iter = s.iter) ∧
    ((setNGhost n s).solver_type = s.solver_type ∧ (setNGhost n s).verbose = s.verbose ∧
      (setNGhost n s).maxiter = s.maxiter ∧ (setNGhost n s).iter = s.iter) ∧
    ((setVerbose n s).solver_type = s.solver_type ∧ (setVerbose n s).maxiter = s.maxiter ∧
      (setVerbose n s).nghost = s.nghost ∧ (setVerbose n s).iter = s.iter) ∧
    ((setSolver t s).verbose = s.verbose ∧ (setSolver t s).maxiter = s.maxiter ∧
      (setSolver t s).nghost = s.nghost ∧ (setSolver t s).iter = s.iter) ∧
    ((getVerbose s).2 = s ∧ (getMaxIter s).2 = s ∧ (getNGhost s).2 = s ∧
      (getNumIters s).2 = s) :=
  ⟨⟨rfl, rfl, rfl, rfl⟩, ⟨rfl, rfl, rfl, rfl⟩, ⟨rfl, rfl, rfl, rfl⟩, ⟨rfl, rfl, rfl, rfl⟩,
    ⟨rfl, rfl, rfl, rfl⟩⟩

/-- C8.  Solver configuration is instance-scoped: a setter call on the solver at address
`a` leaves the solver at every other address `b` as it was, and with it what the getters
return on it and its solver type. -/
theorem setter_call_instance_scoped (w : World) (a b : Nat) (c : SetterCall) (hab : a ≠ b) :
    (getMaxIter ((w.call a c.run) b)).1 = (getMaxIter (w b)).1 ∧
    (getNGhost ((w.call a c.run) b)).1 = (getNGhost (w b)).1 ∧
    (getVerbose ((w.call a c.run) b)).1 = (getVerbose (w b)).1 ∧
    (getNumIters ((w.call a c.run) b)).1 = (getNumIters (w b)).1 ∧
    ((w.call a c.run) b).solver_type = (w b).solver_type ∧
    (w.call a c.run) b = w b := by
  have h : (w.call a c.run) b = w b := by
    unfold World.call
    rw [if_neg (Ne.symm hab)]
  rw [h]
  exact ⟨rfl, rfl, rfl, rfl, rfl, rfl⟩

/-- Witness of C8: two fresh solvers at addresses 0 and 1; `setMaxIter(5)` on the first
changes its own budget and leaves the second at the default. -/
theorem setter_call_instance_scoped_witness :
    (0 : Nat) ≠ 1 ∧
      (getMaxIter ((World.call (fun _ => construct 0 0 0 0 none) 0
        (SetterCall.setMaxIter 5).run) 0)).1 = 5 ∧
      (getMaxIter ((World.call (fun _ => construct 0 0 0 0 none) 0
        (SetterCall.setMaxIter 5).run) 1)).1 = 100 :=
  ⟨by decide, rfl,
    (setter_call_instance_scoped (fun _ => construct 0 0 0 0 none) 0 1
      (SetterCall.setMaxIter 5) (by decide)).1⟩

/-- C10.  The algorithm selection is a two-valued flag set by the caller: construction
without a type gives BiCGStab, construction with type `t` gives `t`; after setter calls the
type is the argument of the last `setSolver` (or the type before them when there is none);
`setSolver(t1)` then `setSolver(t2)` is `setSolver(t2)`; the type is BiCGStab or CG; and
the other setters, the getters and the solve calls leave it unchanged. -/
theorem solver_type_is_configuration_flag (a_mlmg lp : Nat) (amrlev mglev : Int)
    (s : MLCGSolver) (t t1 t2 : CGType) (n : Int) (cs : List SetterCall) :
    (construct a_mlmg lp amrlev mglev none).solver_type = CGType.BiCGStab ∧
    (construct a_mlmg lp amrlev mglev (some t)).solver_type = t ∧
    (runSetters (cs ++ [SetterCall.setSolver t]) s).solver_type = t ∧
    (runSetters cs s).solver_type = (lastSetSolver cs).getD s.solver_type ∧
    setSolver t2 (setSolver t1 s) = setSolver t2 s ∧
    (s.solver_type = CGType.BiCGStab ∨ s.solver_type = CGType.CG) ∧
    ((setMaxIter n s).solver_type = s.solver_type ∧
      (setNGhost n s).solver_type = s.solver_type ∧
      (setVerbose n s).solver_type = s.solver_type ∧
      (getVerbose s).2.solver_type = s.solver_type ∧
      (getMaxIter s).2.solver_type = s.solver_type ∧
      (getNGhost s).2.solver_type = s.solver_type ∧
      (getNumIters s).2.solver_type = s.solver_type) ∧
    (∀ (S V : Type) (o : Collab S V) (solnL rhsL : V) (eps_rel eps_abs : S),
      (s.solve_cg o solnL rhsL eps_rel eps_abs).2.2.solver_type = s.solver_type ∧
      (s.solve_bicgstab o solnL rhsL eps_rel eps_abs).2.2.solver_type = s.solver_type ∧
      (s.solve o solnL rhsL eps_rel eps_abs).2.2.solver_type = s.solver_type) := by
  refine ⟨rfl, rfl, ?_, runSetters_solver_type cs s, rfl, ?_,
    ⟨rfl, rfl, rfl, rfl, rfl, rfl, rfl⟩, ?_⟩
  · rw [runSetters_solver_type]
    have hl : lastSetSolver (cs ++ [SetterCall.setSolver t]) = some t := by
      induction cs with
      | nil => rfl
      | cons c cs ih => cases c <;> simp [lastSetSolver, ih]
    rw [hl]
    rfl
  · cases s.solver_type
    · exact Or.inl rfl
    · exact Or.inr rfl
  · intro S V o solnL rhsL eps_rel eps_abs
    refine ⟨rfl, rfl, ?_⟩
    rw [(solve_frame o s solnL rhsL eps_rel eps_abs).2.2]

/-- Witness of C10: a default-constructed solver switched to CG runs CG, and the solve
call leaves the type at CG. -/
theorem solver_type_is_configuration_flag_witness :
    (setSolver CGType.CG (construct 0 0 0 0 none)).solve (cellOps 1) 0 1 0 0
        = (0, 1, { setSolver CGType.CG (construct 0 0 0 0 none) with iter := 1 }) ∧
      ((setSolver CGType.CG (construct 0 0 0 0 none)).solve (cellOps 1) 0 1 0 0).2.2.solver_type
        = (setSolver CGType.CG (construct 0 0 0 0 none)).solver_type :=
  ⟨rfl, ((solver_type_is_configuration_flag 0 0 0 0 (setSolver CGType.CG (construct 0 0 0 0 none))
    CGType.CG CGType.CG CGType.CG 0 []).2.2.2.2.2.2.2 Int Int (cellOps 1) 0 1 0 0).2.2⟩

end amrex
